import Mathlib

/-!
Shallow embedding of `src/scripts/services/check-removed-services.js`.

JavaScript strings are modelled as `List Char`; JSON values as the
inductive `JsValue`; the filesystem and the `js-yaml` library as
parameters of an `Env` record; the observable behaviour of a run
(files written, console lines, normal return or escaped exception)
as a `RunResult` record.
-/

namespace AdRules

/-- JavaScript strings, modelled as lists of characters. -/
abbrev Str := List Char

/-- The character class `[a-z0-9.]` of the regular expression in
`normalizeFileName` (the source builds `/[^a-z0-9.]/g` and deletes the
matches, i.e. keeps exactly these characters). -/
def isNormalChar (c : Char) : Bool :=
  (decide ('a' ≤ c) && decide (c ≤ 'z'))
    || (decide ('0' ≤ c) && decide (c ≤ '9'))
    || (c == '.')

/-- Embedding of `normalizeFileName`: lowercase the string
(`String.prototype.toLowerCase`, modelled per character by
`Char.toLower`, which performs the ASCII case folding), then delete
every character outside `[a-z0-9.]`. -/
def normalizeFileName (serviceName : Str) : Str :=
  (serviceName.map Char.toLower).filter isNormalChar

/-- JSON-like JavaScript values, as produced by `JSON.parse` (plus
`undefined`, which property accesses can yield). -/
inductive JsValue where
  | str (s : Str)
  | num (n : Int)
  | bool (b : Bool)
  | null
  | undefined
  | arr (elems : List JsValue)
  | obj (fields : List (Str × JsValue))

/-- Property access `v.name`: on an object, the value of the field (or
`undefined` when absent); on `null` or `undefined` it throws a
`TypeError`; on any other value it yields `undefined`. -/
def jsField (v : JsValue) (name : Str) : Except Str JsValue :=
  match v with
  | .obj fields =>
    match fields.find? (fun f => f.1 = name) with
    | some f => .ok f.2
    | none => .ok .undefined
  | .null => .error "TypeError: Cannot read properties of null".data
  | .undefined => .error "TypeError: Cannot read properties of undefined".data
  | _ => .ok .undefined

/-- `x.toLowerCase()` as invoked by `normalizeFileName` on the raw `id`
value: succeeds only on strings, otherwise throws a `TypeError`. -/
def jsToLowerCase (v : JsValue) : Except Str Str :=
  match v with
  | .str s => .ok (s.map Char.toLower)
  | _ => .error "TypeError: toLowerCase is not a function".data

/-- `normalizeFileName` applied to an arbitrary JavaScript value (the
way the script calls it on `service.id`): `toLowerCase` throws unless
the value is a string, then the character class filter is applied. -/
def jsNormalizeFileName (v : JsValue) : Except Str Str :=
  match jsToLowerCase v with
  | .error e => .error e
  | .ok lowerCased => .ok (lowerCased.filter isNormalChar)

/-- `Array.isArray`. -/
def isArray (v : JsValue) : Bool :=
  match v with
  | .arr _ => true
  | _ => false

/-- `Array.prototype.join(sep)` on a list of strings. -/
def joinWith (sep : Str) : List Str → Str
  | [] => []
  | [s] => s
  | s :: rest => s ++ sep ++ joinWith sep rest

mutual

/-- Stringification performed by a template literal `${v}` (and by
`Array.prototype.join` on nested elements, where `null` and
`undefined` render as the empty string). -/
def jsTemplate : JsValue → Str
  | .str s => s
  | .num n => (toString n).data
  | .bool b => (toString b).data
  | .null => "null".data
  | .undefined => "undefined".data
  | .obj _ => "[object Object]".data
  | .arr elems => joinWith ",".data (jsTemplateElems elems)

/-- The element renderings used by `Array.prototype.join`: `null` and
`undefined` elements render as the empty string. -/
def jsTemplateElems : List JsValue → List Str
  | [] => []
  | .null :: rest => [] :: jsTemplateElems rest
  | .undefined :: rest => [] :: jsTemplateElems rest
  | v :: rest => jsTemplate v :: jsTemplateElems rest

end

/-- Index of the last occurrence of `.` in a string, if any. -/
def lastDotIdx : Str → Option Nat
  | [] => none
  | c :: rest =>
    match lastDotIdx rest with
    | some i => some (i + 1)
    | none => if c = '.' then some 0 else none

/-- `path.parse(fileName).name` for a plain base name (no path
separators), following the Node.js posix parser: a name with no dot,
or whose only dot is the leading character, or which is exactly `..`,
has no extension; otherwise everything from the last dot on is the
extension and is stripped. -/
def pathParseName (s : Str) : Str :=
  match lastDotIdx s with
  | none => s
  | some 0 => s
  | some i =>
    if s.head? = some '.' ∧ i = 1 ∧ s.length = 2 then s
    else s.take i

/-- `Array.prototype.sort()` with the default comparator, which on an
array of strings sorts by lexicographic comparison of the character
sequences. Both call sites in the script sort lists of normalized
(pure ASCII) names, on which the lexicographic order on `List Char`
coincides with the UTF-16 code unit order used by JavaScript. -/
def jsSort (l : List Str) : List Str :=
  l.insertionSort (· ≤ ·)

/-- The constant `YML_FILE_EXTENSION = '.yml'`. -/
def YML_FILE_EXTENSION : Str := ".yml".data

/-- The module-level constant
`servicesDir = path.resolve(__dirname, '../../services/')`: an
absolute path fixed at module load, independent of the arguments
passed to `checkRemovedServices`. -/
def servicesDir : Str := "/adrules/services".data

/-- Joining a directory with a base name. -/
def pathJoin (dir file : Str) : Str := dir ++ "/".data ++ file

/-- A console line: `console.error` or `console.log`. -/
inductive LogLine where
  | err (msg : Str)
  | info (msg : Str)
  deriving DecidableEq, Repr

/-- The external world of one run: the outcome of
`fs.readFile`+`JSON.parse` on the legacy JSON file, the outcome of
`fs.readdir` on the services folder, the behaviour of `fs.writeFile`
(`some e` means the write of that path rejects with `e`), and the
`js-yaml` `dump` function (a parameter because the library is external
to the repository; its second argument records the `lineWidth` option
passed). -/
structure Env where
  servicesFolderPath : Str
  jsonDoc : Except Str JsValue
  readdir : Except Str (List Str)
  writeErr : Str → Option Str
  yamlDump : JsValue → Int → Str

deriving instance DecidableEq for Except

/-- Observable behaviour of one run: files written (path, content) in
order, console lines in order, and whether the returned promise
resolves (`.ok`) or rejects with an uncaught error (`.error`). -/
structure RunResult where
  writes : List (Str × Str)
  logs : List LogLine
  outcome : Except Str Unit
  deriving DecidableEq, Repr

/-- Embedding of `getJsonObjects`: on a read/parse failure the error
is caught and logged and `null` is returned; otherwise the
`blocked_services` property is accessed (an access that itself throws
inside the `try` when the parsed document is `null`). -/
def getJsonObjects (jsonDoc : Except Str JsValue) : List LogLine × Option JsValue :=
  match jsonDoc with
  | .error e => ([.err ("Error while reading JSON file: ".data ++ e)], none)
  | .ok jsonObjects =>
    match jsField jsonObjects "blocked_services".data with
    | .error e => ([.err ("Error while reading JSON file: ".data ++ e)], none)
    | .ok v => ([], some v)

/-- `Array.prototype.map` with a callback that may throw: elements are
processed left to right and the first exception aborts the whole
map. -/
def jsMapThrow {α β : Type} (f : α → Except Str β) : List α → Except Str (List β)
  | [] => .ok []
  | x :: xs =>
    match f x with
    | .error e => .error e
    | .ok y =>
      match jsMapThrow f xs with
      | .error e => .error e
      | .ok ys => .ok (y :: ys)

/-- Embedding of `getJsonObjectNames`: map each record to its `id`
property, normalize each id, sort. A `TypeError` thrown by the
property access or by `toLowerCase` on a non-string id propagates
(there is no `try` here). -/
def getJsonObjectNames (jsonData : List JsValue) : Except Str (List Str) :=
  match jsMapThrow (fun service => jsField service "id".data) jsonData with
  | .error e => .error e
  | .ok jsonServicesId =>
    match jsMapThrow jsNormalizeFileName jsonServicesId with
    | .error e => .error e
    | .ok formattedServicesId => .ok (jsSort formattedServicesId)

/-- The pure part of `getYmlFileNames`, applied to the directory
listing: strip each entry's extension with `path.parse(...).name`,
normalize, sort. -/
def getYmlFileNames (ymlFiles : List Str) : List Str :=
  jsSort ((ymlFiles.map pathParseName).map normalizeFileName)

/-- The diff computed inside `checkRemovedServices`:
`jsonObjectNames.filter((name) => !ymlFileNames.includes(name))`. -/
def differencesOf (jsonObjectNames ymlFileNames : List Str) : List Str :=
  jsonObjectNames.filter (fun name => !(ymlFileNames.contains name))

/-- Embedding of `writeRemovedServices`: write the head record to
`path.join(servicesDir + '/' + record.id + YML_FILE_EXTENSION)` with
`yaml.dump(record, { lineWidth: -1 })`, then recurse on the tail when
`removedObjects.length > 1`. The property access `removedObject.id`
throws on an `undefined` record; a rejected `fs.writeFile` aborts the
recursion. Returns the writes performed and the final outcome. -/
def writeRemovedServices (writeErr : Str → Option Str) (yamlDump : JsValue → Int → Str) :
    List JsValue → List (Str × Str) × Except Str Unit
  | [] => ([], .ok ())
  | removedObject :: restObjects =>
    match jsField removedObject "id".data with
    | .error e => ([], .error e)
    | .ok idv =>
      let filePath := pathJoin servicesDir (jsTemplate idv ++ YML_FILE_EXTENSION)
      match writeErr filePath with
      | some e => ([], .error e)
      | none =>
        let w := (filePath, yamlDump removedObject (-1))
        if (restObjects.length + 1) > 1 then
          let rest := writeRemovedServices writeErr yamlDump restObjects
          (w :: rest.1, rest.2)
        else ([w], .ok ())

/-- The `Array.prototype.find` call inside `rewriteYMLFile`: the first
record whose normalized `id` equals the missing name, `undefined` when
none matches; a `TypeError` from the predicate propagates. -/
def jsFindServiceData (jsonServicesData : List JsValue) (removedServiceName : Str) :
    Except Str JsValue :=
  match jsonServicesData with
  | [] => .ok .undefined
  | el :: rest =>
    match jsField el "id".data with
    | .error e => .error e
    | .ok idv =>
      match jsNormalizeFileName idv with
      | .error e => .error e
      | .ok nid =>
        if nid = removedServiceName then .ok el
        else jsFindServiceData rest removedServiceName

/-- Embedding of `rewriteYMLFile`: resolve every missing name to the
first matching record, write them all; any exception in the whole
block is caught and logged (`console.error('Error while rewriting
file:', ...)`), leaving the writes performed so far in place. -/
def rewriteYMLFile (writeErr : Str → Option Str) (yamlDump : JsValue → Int → Str)
    (removedServicesNames : List Str) (jsonServicesData : List JsValue) :
    List (Str × Str) × List LogLine :=
  match jsMapThrow (jsFindServiceData jsonServicesData) removedServicesNames with
  | .error e => ([], [.err ("Error while rewriting file: ".data ++ e)])
  | .ok removedServicesObjects =>
    match writeRemovedServices writeErr yamlDump removedServicesObjects with
    | (ws, .ok _) => (ws, [])
    | (ws, .error e) => (ws, [.err ("Error while rewriting file: ".data ++ e)])

/-- The summary line
``console.log(`These services have been removed: ...`)``. -/
def summaryMsg (differences : List Str) : Str :=
  "These services have been removed: ".data ++ joinWith ", ".data differences
    ++ ", and were rewritten".data

/-- Embedding of the entry point `checkRemovedServices`: load the
legacy document (failures caught inside `getJsonObjects`); return
silently unless the `blocked_services` value is an array; list the
services folder (`fs.readdir` — not under any `try`, so a failure
rejects the returned promise); normalize and sort both name lists
(`getJsonObjectNames` — also not under any `try`); filter the missing
names; when the diff is non-empty, rewrite the files and print the
summary line. -/
def checkRemovedServices (env : Env) : RunResult :=
  let load := getJsonObjects env.jsonDoc
  match load.2 with
  | none => ⟨[], load.1, .ok ()⟩
  | some (.arr jsonDataObjects) =>
    match env.readdir with
    | .error e => ⟨[], load.1, .error e⟩
    | .ok ymlFiles =>
      let ymlFileNames := getYmlFileNames ymlFiles
      match getJsonObjectNames jsonDataObjects with
      | .error e => ⟨[], load.1, .error e⟩
      | .ok jsonObjectNames =>
        let differences := differencesOf jsonObjectNames ymlFileNames
        if differences.length > 0 then
          let rw := rewriteYMLFile env.writeErr env.yamlDump differences jsonDataObjects
          ⟨rw.1, load.1 ++ rw.2 ++ [.info (summaryMsg differences)], .ok ()⟩
        else ⟨[], load.1, .ok ()⟩
  | some _ => ⟨[], load.1, .ok ()⟩

/-! ### Helper lemmas -/

/-- Characters of the class `[a-z0-9.]` are fixed by `toLowerCase`. -/
theorem toLower_of_isNormalChar {c : Char} (h : isNormalChar c = true) :
    Char.toLower c = c := by
  simp only [isNormalChar, Bool.or_eq_true, Bool.and_eq_true, decide_eq_true_eq,
    beq_iff_eq] at h
  rcases h with (⟨h1, h2⟩ | ⟨h1, h2⟩) | rfl
  · unfold Char.toLower
    rw [if_neg]
    intro ⟨ha, hb⟩
    have : 97 ≤ c.toNat := h1
    omega
  · unfold Char.toLower
    rw [if_neg]
    intro ⟨ha, hb⟩
    have : c.toNat ≤ 57 := h2
    omega
  · decide

theorem jsMapThrow_ok_mem {α β : Type} {f : α → Except Str β} :
    ∀ {l : List α} {ys : List β}, jsMapThrow f l = .ok ys →
      ∀ y ∈ ys, ∃ x ∈ l, f x = .ok y := by
  intro l
  induction l with
  | nil => intro ys h y hy; simp [jsMapThrow] at h; subst h; simp at hy
  | cons a as ih =>
    intro ys h y hy
    simp only [jsMapThrow] at h
    cases hfa : f a with
    | error e => rw [hfa] at h; simp at h
    | ok y0 =>
      rw [hfa] at h
      cases hrest : jsMapThrow f as with
      | error e => rw [hrest] at h; simp at h
      | ok ys0 =>
        rw [hrest] at h
        simp only [Except.ok.injEq] at h
        subst h
        rcases List.mem_cons.mp hy with rfl | hmem
        · exact ⟨a, List.mem_cons_self a as, hfa⟩
        · rcases ih hrest y hmem with ⟨x, hx, hfx⟩
          exact ⟨x, List.mem_cons_of_mem a hx, hfx⟩

theorem jsMapThrow_mem_ok {α β : Type} {f : α → Except Str β} :
    ∀ {l : List α} {ys : List β} {x : α} {y : β}, jsMapThrow f l = .ok ys →
      x ∈ l → f x = .ok y → y ∈ ys := by
  intro l
  induction l with
  | nil => intro ys x y h hx; simp at hx
  | cons a as ih =>
    intro ys x y h hx hfx
    simp only [jsMapThrow] at h
    cases hfa : f a with
    | error e => rw [hfa] at h; simp at h
    | ok y0 =>
      rw [hfa] at h
      cases hrest : jsMapThrow f as with
      | error e => rw [hrest] at h; simp at h
      | ok ys0 =>
        rw [hrest] at h
        simp only [Except.ok.injEq] at h
        subst h
        rcases List.mem_cons.mp hx with rfl | hmem
        · rw [hfa] at hfx
          simp only [Except.ok.injEq] at hfx
          subst hfx
          exact List.mem_cons_self _ _
        · exact List.mem_cons_of_mem _ (ih hrest hmem hfx)

theorem jsMapThrow_error_mem {α β : Type} {f : α → Except Str β} :
    ∀ {l : List α} {e : Str}, jsMapThrow f l = .error e →
      ∃ x ∈ l, f x = .error e := by
  intro l
  induction l with
  | nil => intro e h; simp [jsMapThrow] at h
  | cons a as ih =>
    intro e h
    simp only [jsMapThrow] at h
    cases hfa : f a with
    | error e0 =>
      rw [hfa] at h
      simp only [Except.error.injEq] at h
      subst h
      exact ⟨a, List.mem_cons_self a as, hfa⟩
    | ok y0 =>
      rw [hfa] at h
      cases hrest : jsMapThrow f as with
      | error e0 =>
        rw [hrest] at h
        simp only [Except.error.injEq] at h
        subst h
        rcases ih hrest with ⟨x, hx, hfx⟩
        exact ⟨x, List.mem_cons_of_mem a hx, hfx⟩
      | ok ys0 => rw [hrest] at h; simp at h

theorem jsMapThrow_error_of_mem {α β : Type} {f : α → Except Str β} :
    ∀ {l : List α} {x : α} {e : Str}, x ∈ l → f x = .error e →
      ∃ e2, jsMapThrow f l = .error e2 := by
  intro l
  induction l with
  | nil => intro x e hx; simp at hx
  | cons a as ih =>
    intro x e hx hfx
    rcases List.mem_cons.mp hx with rfl | hmem
    · exact ⟨e, by simp [jsMapThrow, hfx]⟩
    · cases hfa : f a with
      | error e0 => exact ⟨e0, by simp [jsMapThrow, hfa]⟩
      | ok y0 =>
        rcases ih hmem hfx with ⟨e2, h2⟩
        exact ⟨e2, by simp [jsMapThrow, hfa, h2]⟩

theorem mem_jsSort {l : List Str} {x : Str} : x ∈ jsSort l ↔ x ∈ l :=
  List.mem_insertionSort _

theorem sorted_jsSort (l : List Str) : (jsSort l).Sorted (· ≤ ·) :=
  List.sorted_insertionSort _ l

theorem mem_differencesOf {ns yml : List Str} {x : Str} :
    x ∈ differencesOf ns yml ↔ x ∈ ns ∧ x ∉ yml := by
  simp [differencesOf, List.mem_filter]

/-! ### C9: the normalizer is idempotent -/

/-- C9: `normalizeFileName` is idempotent: lowercasing and removing
every character outside `[a-z0-9.]` a second time changes nothing,
because every character surviving the first pass is in `[a-z0-9.]`
and such characters are fixed by both steps. -/
theorem normalizeFileName_idempotent (x : Str) :
    normalizeFileName (normalizeFileName x) = normalizeFileName x := by
  have hall : ∀ c ∈ (x.map Char.toLower).filter isNormalChar, isNormalChar c = true :=
    fun c hc => List.of_mem_filter hc
  show ((((x.map Char.toLower).filter isNormalChar).map Char.toLower).filter isNormalChar)
      = (x.map Char.toLower).filter isNormalChar
  have hmap : ((x.map Char.toLower).filter isNormalChar).map Char.toLower
      = (x.map Char.toLower).filter isNormalChar := by
    conv_rhs => rw [← List.map_id ((x.map Char.toLower).filter isNormalChar)]
    exact List.map_congr_left (fun c hc => toLower_of_isNormalChar (hall c hc))
  rw [hmap, List.filter_eq_self.mpr hall]

/-! ### C4: collision resolution picks the first matching record -/

/-- C4: when `jsFindServiceData` (the `find` call of `rewriteYMLFile`)
resolves a missing key to an actual record, that record is the first
element of the legacy array whose `id`, after normalization, equals
the key: every earlier element has a normalized id different from the
key. -/
theorem jsFindServiceData_first (data : List JsValue) (k : Str) (r : JsValue)
    (hfind : jsFindServiceData data k = .ok r) (hne : r ≠ .undefined) :
    ∃ l₁ l₂, data = l₁ ++ r :: l₂ ∧
      (∃ iv, jsField r "id".data = .ok iv ∧ jsNormalizeFileName iv = .ok k) ∧
      (∀ v ∈ l₁, ∃ iv s, jsField v "id".data = .ok iv ∧
        jsNormalizeFileName iv = .ok s ∧ s ≠ k) := by
  induction data with
  | nil =>
    simp only [jsFindServiceData, Except.ok.injEq] at hfind
    exact absurd hfind.symm hne
  | cons el rest ih =>
    simp only [jsFindServiceData] at hfind
    cases hid : jsField el "id".data with
    | error e => rw [hid] at hfind; simp at hfind
    | ok idv =>
      rw [hid] at hfind
      dsimp only at hfind
      cases hnorm : jsNormalizeFileName idv with
      | error e => rw [hnorm] at hfind; simp at hfind
      | ok nid =>
        rw [hnorm] at hfind
        dsimp only at hfind
        by_cases heq : nid = k
        · rw [if_pos heq] at hfind
          simp only [Except.ok.injEq] at hfind
          subst hfind
          exact ⟨[], rest, rfl, ⟨idv, hid, heq ▸ hnorm⟩, by simp⟩
        · rw [if_neg heq] at hfind
          rcases ih hfind with ⟨l₁, l₂, hsplit, hr, hfirst⟩
          refine ⟨el :: l₁, l₂, by rw [hsplit]; rfl, hr, ?_⟩
          intro v hv
          rcases List.mem_cons.mp hv with rfl | hmem
          · exact ⟨idv, nid, hid, hnorm, heq⟩
          · exact hfirst v hmem

/-- Witness for C4, on the collision example of the spec: with legacy
records `A-B` and `ab` both normalizing to the key `ab`, the resolver
picks the record with id `A-B`, the first in array order. -/
theorem jsFindServiceData_first_witness :
    ∃ l₁ l₂,
      [JsValue.obj [("id".data, JsValue.str "A-B".data)],
       JsValue.obj [("id".data, JsValue.str "ab".data)]]
        = l₁ ++ (JsValue.obj [("id".data, JsValue.str "A-B".data)]) :: l₂ ∧
      (∃ iv, jsField (JsValue.obj [("id".data, JsValue.str "A-B".data)]) "id".data = .ok iv ∧
        jsNormalizeFileName iv = .ok "ab".data) ∧
      (∀ v ∈ l₁, ∃ iv s, jsField v "id".data = .ok iv ∧
        jsNormalizeFileName iv = .ok s ∧ s ≠ "ab".data) :=
  jsFindServiceData_first
    [JsValue.obj [("id".data, JsValue.str "A-B".data)],
     JsValue.obj [("id".data, JsValue.str "ab".data)]]
    "ab".data (JsValue.obj [("id".data, JsValue.str "A-B".data)])
    rfl (fun h => JsValue.noConfusion h)

/-! ### C1: the diff is a membership-based set difference, sorted -/

/-- C1: when the legacy record array maps to its id list and the
normalized id list successfully, the diff that `checkRemovedServices`
computes (via `differencesOf` over `getJsonObjectNames` and
`getYmlFileNames`) contains exactly the normalized legacy ids that do
not occur among the normalized, extension-stripped file names of the
directory listing, and it is sorted ascending because the legacy key
list was sorted before differencing. -/
theorem checkRemovedServices_diff_spec
    (jsonData : List JsValue) (ymlFiles : List Str)
    (ids : List JsValue) (formatted : List Str)
    (hids : jsMapThrow (fun service => jsField service "id".data) jsonData = .ok ids)
    (hfmt : jsMapThrow jsNormalizeFileName ids = .ok formatted) :
    getJsonObjectNames jsonData = .ok (jsSort formatted) ∧
    (∀ x, x ∈ differencesOf (jsSort formatted) (getYmlFileNames ymlFiles) ↔
      x ∈ formatted ∧ x ∉ (ymlFiles.map pathParseName).map normalizeFileName) ∧
    (differencesOf (jsSort formatted) (getYmlFileNames ymlFiles)).Sorted (· ≤ ·) := by
  refine ⟨?_, ?_, ?_⟩
  · simp only [getJsonObjectNames, hids, hfmt]
  · intro x
    rw [mem_differencesOf, mem_jsSort]
    constructor
    · rintro ⟨hx, hnot⟩
      refine ⟨hx, fun hmem => hnot ?_⟩
      unfold getYmlFileNames
      exact mem_jsSort.mpr hmem
    · rintro ⟨hx, hnot⟩
      refine ⟨hx, fun hmem => hnot ?_⟩
      exact mem_jsSort.mp hmem
  · exact (sorted_jsSort formatted).filter _

/-- Witness for C1: legacy ids `B!` and `a` (normalizing to `b` and
`a`) against the single file `a.yml`: the computed diff is exactly
`[b]`, the sorted missing-key list. -/
theorem checkRemovedServices_diff_spec_witness :
    getJsonObjectNames
        [JsValue.obj [("id".data, JsValue.str "B!".data)],
         JsValue.obj [("id".data, JsValue.str "a".data)]]
      = .ok (jsSort ["b".data, "a".data]) ∧
    (∀ x, x ∈ differencesOf (jsSort ["b".data, "a".data]) (getYmlFileNames ["a.yml".data]) ↔
      x ∈ ["b".data, "a".data] ∧
        x ∉ (["a.yml".data].map pathParseName).map normalizeFileName) ∧
    (differencesOf (jsSort ["b".data, "a".data]) (getYmlFileNames ["a.yml".data])).Sorted
      (· ≤ ·) :=
  checkRemovedServices_diff_spec
    [JsValue.obj [("id".data, JsValue.str "B!".data)],
     JsValue.obj [("id".data, JsValue.str "a".data)]]
    ["a.yml".data]
    [JsValue.str "B!".data, JsValue.str "a".data]
    ["b".data, "a".data] rfl rfl

/-! ### C3: nothing happens when no key is missing -/

/-- C3: when every normalized legacy id occurs among the normalized
file names, the diff is empty and the run writes no file, logs no
line, and returns normally. -/
theorem checkRemovedServices_no_missing_noop
    (env : Env) (doc : JsValue) (objs : List JsValue) (files : List Str) (ns : List Str)
    (hdoc : env.jsonDoc = .ok doc)
    (hbs : jsField doc "blocked_services".data = .ok (.arr objs))
    (hdir : env.readdir = .ok files)
    (hns : getJsonObjectNames objs = .ok ns)
    (hsub : ∀ x ∈ ns, x ∈ getYmlFileNames files) :
    differencesOf ns (getYmlFileNames files) = [] ∧
    checkRemovedServices env = ⟨[], [], .ok ()⟩ := by
  have hdiff : differencesOf ns (getYmlFileNames files) = [] := by
    unfold differencesOf
    rw [List.filter_eq_nil_iff]
    intro a ha
    simp [hsub a ha]
  refine ⟨hdiff, ?_⟩
  simp only [checkRemovedServices, getJsonObjects, hdoc, hbs, hdir, hns, hdiff]
  simp

/-- Witness for C3: one legacy record `other` whose file `other.yml`
exists: empty diff, no write, no log. -/
theorem checkRemovedServices_no_missing_noop_witness :
    differencesOf ["other".data] (getYmlFileNames ["other.yml".data]) = [] ∧
    checkRemovedServices
        ⟨servicesDir,
         .ok (.obj [("blocked_services".data,
           .arr [.obj [("id".data, .str "other".data)]])]),
         .ok ["other.yml".data], fun _ => none, fun _ _ => []⟩
      = ⟨[], [], .ok ()⟩ :=
  checkRemovedServices_no_missing_noop _
    (.obj [("blocked_services".data, .arr [.obj [("id".data, .str "other".data)]])])
    [.obj [("id".data, .str "other".data)]]
    ["other.yml".data] ["other".data]
    rfl rfl rfl rfl (by decide)

/-! ### C5: legacy load failure aborts silently, non-array is a no-op -/

/-- C5: a read/parse failure of the legacy JSON yields zero writes,
exactly one error log, and a normal return; and when the value under
`blocked_services` is not an array, the run is a silent no-op (no
write, no log, normal return). -/
theorem checkRemovedServices_load_failure
    (env : Env) (e : Str) (doc w : JsValue) :
    (env.jsonDoc = .error e →
      checkRemovedServices env =
        ⟨[], [.err ("Error while reading JSON file: ".data ++ e)], .ok ()⟩) ∧
    (env.jsonDoc = .ok doc → jsField doc "blocked_services".data = .ok w →
      isArray w = false → checkRemovedServices env = ⟨[], [], .ok ()⟩) := by
  constructor
  · intro h
    simp [checkRemovedServices, getJsonObjects, h]
  · intro h hb hw
    cases w <;> simp_all [checkRemovedServices, getJsonObjects, isArray]

/-- Witness for C5: a failing read produces exactly one error log and
a normal return; a non-array `blocked_services` value produces a
silent no-op. -/
theorem checkRemovedServices_load_failure_witness :
    checkRemovedServices ⟨[], .error "ENOENT".data, .ok [], fun _ => none, fun _ _ => []⟩ =
      ⟨[], [.err ("Error while reading JSON file: ".data ++ "ENOENT".data)], .ok ()⟩ ∧
    checkRemovedServices
        ⟨[], .ok (.obj [("blocked_services".data, .str "x".data)]), .ok [],
         fun _ => none, fun _ _ => []⟩ = ⟨[], [], .ok ()⟩ :=
  ⟨(checkRemovedServices_load_failure
      ⟨[], .error "ENOENT".data, .ok [], fun _ => none, fun _ _ => []⟩
      "ENOENT".data .null .null).1 rfl,
   (checkRemovedServices_load_failure
      ⟨[], .ok (.obj [("blocked_services".data, .str "x".data)]), .ok [],
       fun _ => none, fun _ _ => []⟩
      [] (.obj [("blocked_services".data, .str "x".data)]) (.str "x".data)).2 rfl rfl rfl⟩

/-! ### The write step, as specification vocabulary -/

/-- Total property access: the accessed value, or `undefined` when the
access would throw. Used only to state paths concisely. -/
def jsFieldD (v : JsValue) (name : Str) : JsValue :=
  match jsField v name with
  | .ok x => x
  | .error _ => .undefined

/-- The path `writeRemovedServices` writes a record to:
`servicesDir` + `/` + the record's original `id` + `.yml`. -/
def writePathOf (v : JsValue) : Str :=
  pathJoin servicesDir (jsTemplate (jsFieldD v "id".data) ++ YML_FILE_EXTENSION)

/-- Outcome of attempting the write of one record: the error thrown
(property access on an `undefined` record, or rejected
`fs.writeFile`), or the path written. -/
def writeAttempt (writeErr : Str → Option Str) (v : JsValue) : Except Str Str :=
  match jsField v "id".data with
  | .error e => .error e
  | .ok iv =>
    match writeErr (pathJoin servicesDir (jsTemplate iv ++ YML_FILE_EXTENSION)) with
    | some e => .error e
    | none => .ok (pathJoin servicesDir (jsTemplate iv ++ YML_FILE_EXTENSION))

theorem writeAttempt_ok_path {we : Str → Option Str} {v : JsValue} {p : Str}
    (h : writeAttempt we v = .ok p) :
    p = writePathOf v ∧ we (writePathOf v) = none ∧
      ∃ iv, jsField v "id".data = .ok iv := by
  unfold writeAttempt at h
  cases hid : jsField v "id".data with
  | error e => rw [hid] at h; simp at h
  | ok iv =>
    rw [hid] at h
    dsimp only at h
    cases hwe : we (pathJoin servicesDir (jsTemplate iv ++ YML_FILE_EXTENSION)) with
    | some e => rw [hwe] at h; simp at h
    | none =>
      rw [hwe] at h
      simp only [Except.ok.injEq] at h
      have hpath : writePathOf v = pathJoin servicesDir (jsTemplate iv ++ YML_FILE_EXTENSION) := by
        unfold writePathOf jsFieldD
        rw [hid]
      exact ⟨(hpath.trans h).symm, by rw [hpath]; exact hwe, ⟨iv, rfl⟩⟩

/-- A failing element splits a `writeRemovedServices` batch: the
records before the first failure are written, the failure's error
becomes the outcome, and nothing after it is written. -/
theorem writeRemovedServices_split (we : Str → Option Str) (dump : JsValue → Int → Str) :
    ∀ (pre : List JsValue) (v : JsValue) (post : List JsValue) (e : Str),
      (∀ u ∈ pre, ∃ p, writeAttempt we u = .ok p) →
      writeAttempt we v = .error e →
      writeRemovedServices we dump (pre ++ v :: post) =
        (pre.map (fun u => (writePathOf u, dump u (-1))), .error e) := by
  intro pre
  induction pre with
  | nil =>
    intro v post e _ hfail
    unfold writeAttempt at hfail
    rw [List.nil_append]
    unfold writeRemovedServices
    cases hid : jsField v "id".data with
    | error e0 => rw [hid] at hfail; simp_all
    | ok iv =>
      rw [hid] at hfail
      dsimp only at hfail
      dsimp only
      cases hwe : we (pathJoin servicesDir (jsTemplate iv ++ YML_FILE_EXTENSION)) with
      | some e0 => rw [hwe] at hfail; simp_all
      | none => rw [hwe] at hfail; simp at hfail
  | cons u pre ih =>
    intro v post e hpre hfail
    rcases writeAttempt_ok_path
      (hpre u (List.mem_cons_self u pre)).choose_spec with ⟨_, hwe, iv, hid⟩
    rw [List.cons_append]
    unfold writeRemovedServices
    rw [hid]
    dsimp only
    have hpath : pathJoin servicesDir (jsTemplate iv ++ YML_FILE_EXTENSION) = writePathOf u := by
      unfold writePathOf jsFieldD
      rw [hid]
    rw [hpath, hwe]
    have hlen : ((pre ++ v :: post).length + 1) > 1 := by simp
    rw [if_pos hlen, ih v post e (fun x hx => hpre x (List.mem_cons_of_mem u hx)) hfail]
    simp

/-- When every write succeeds, `writeRemovedServices` writes every
record, in order, and resolves normally. -/
theorem writeRemovedServices_all_ok (we : Str → Option Str) (dump : JsValue → Int → Str) :
    ∀ (os : List JsValue), (∀ u ∈ os, ∃ p, writeAttempt we u = .ok p) →
      writeRemovedServices we dump os =
        (os.map (fun u => (writePathOf u, dump u (-1))), .ok ()) := by
  intro os
  induction os with
  | nil => intro _; rfl
  | cons u rest ih =>
    intro hall
    rcases writeAttempt_ok_path
      (hall u (List.mem_cons_self u rest)).choose_spec with ⟨_, hwe, iv, hid⟩
    unfold writeRemovedServices
    rw [hid]
    dsimp only
    have hpath : pathJoin servicesDir (jsTemplate iv ++ YML_FILE_EXTENSION) = writePathOf u := by
      unfold writePathOf jsFieldD
      rw [hid]
    rw [hpath, hwe]
    cases rest with
    | nil => simp
    | cons r2 rest2 =>
      have hlen : (((r2 :: rest2).length + 1) > 1) := by simp
      rw [if_pos hlen, ih (fun x hx => hall x (List.mem_cons_of_mem u hx))]
      simp

/-- Every write performed by `writeRemovedServices` is the write of
one of the scheduled records, at its `servicesDir` path, with the
record serialized at `lineWidth -1`. -/
theorem writeRemovedServices_mem (we : Str → Option Str) (dump : JsValue → Int → Str) :
    ∀ (os : List JsValue) (w : Str × Str), w ∈ (writeRemovedServices we dump os).1 →
      ∃ r ∈ os, ∃ iv, jsField r "id".data = .ok iv ∧
        w = (pathJoin servicesDir (jsTemplate iv ++ YML_FILE_EXTENSION), dump r (-1)) := by
  intro os
  induction os with
  | nil => intro w hw; simp [writeRemovedServices] at hw
  | cons r rest ih =>
    intro w hw
    unfold writeRemovedServices at hw
    cases hid : jsField r "id".data with
    | error e => rw [hid] at hw; simp at hw
    | ok iv =>
      rw [hid] at hw
      dsimp only at hw
      cases hwe : we (pathJoin servicesDir (jsTemplate iv ++ YML_FILE_EXTENSION)) with
      | some e => rw [hwe] at hw; simp at hw
      | none =>
        rw [hwe] at hw
        by_cases hlen : ((rest.length + 1) > 1)
        · rw [if_pos hlen] at hw
          rcases List.mem_cons.mp hw with rfl | hmem
          · exact ⟨r, List.mem_cons_self r rest, iv, hid, rfl⟩
          · rcases ih w hmem with ⟨r2, hr2, iv2, hid2, hw2⟩
            exact ⟨r2, List.mem_cons_of_mem r hr2, iv2, hid2, hw2⟩
        · rw [if_neg hlen] at hw
          rcases List.mem_singleton.mp hw with rfl
          exact ⟨r, List.mem_cons_self r rest, iv, hid, rfl⟩

/-! ### C6: a failing write is caught, the rest abandoned, the summary
still printed -/

/-- C6: when the resolved batch is `pre ++ failObj :: post` with every
write in `pre` succeeding and the write of `failObj` failing (either a
filesystem rejection or the property access throwing on a missing
record), the run writes exactly the files of `pre`, logs the caught
error and then still the summary line enumerating all missing keys,
and returns normally: no exception escapes, `post` is abandoned, and
the files of `pre` remain written. -/
theorem checkRemovedServices_write_failure
    (env : Env) (doc : JsValue) (objs : List JsValue) (files : List Str) (ns : List Str)
    (os pre post : List JsValue) (failObj : JsValue) (e : Str)
    (hdoc : env.jsonDoc = .ok doc)
    (hbs : jsField doc "blocked_services".data = .ok (.arr objs))
    (hdir : env.readdir = .ok files)
    (hns : getJsonObjectNames objs = .ok ns)
    (hos : jsMapThrow (jsFindServiceData objs)
      (differencesOf ns (getYmlFileNames files)) = .ok os)
    (hne : differencesOf ns (getYmlFileNames files) ≠ [])
    (hsplit : os = pre ++ failObj :: post)
    (hpre : ∀ u ∈ pre, ∃ p, writeAttempt env.writeErr u = .ok p)
    (hfail : writeAttempt env.writeErr failObj = .error e) :
    checkRemovedServices env =
      ⟨pre.map (fun u => (writePathOf u, env.yamlDump u (-1))),
       [.err ("Error while rewriting file: ".data ++ e),
        .info (summaryMsg (differencesOf ns (getYmlFileNames files)))],
       .ok ()⟩ := by
  have hlen : (differencesOf ns (getYmlFileNames files)).length > 0 :=
    List.length_pos.mpr hne
  subst hsplit
  simp only [checkRemovedServices, getJsonObjects, hdoc, hbs, hdir, hns]
  rw [if_pos hlen]
  simp only [rewriteYMLFile, hos,
    writeRemovedServices_split env.writeErr env.yamlDump pre failObj post e hpre hfail]
  simp

/-- Record with id `a`, used by the C6 witness. -/
def c6RecA : JsValue := .obj [("id".data, .str "a".data)]

/-- Record with id `b`, used by the C6 witness. -/
def c6RecB : JsValue := .obj [("id".data, .str "b".data)]

/-- Environment of the C6 witness: two missing records, the write of
`b.yml` rejects with `EACCES`. -/
def c6Env : Env :=
  ⟨servicesDir,
   .ok (.obj [("blocked_services".data, .arr [c6RecA, c6RecB])]),
   .ok [],
   fun p => if p = pathJoin servicesDir "b.yml".data then some "EACCES".data else none,
   fun _ _ => "Y".data⟩

/-- Witness for C6: with the write of `b.yml` failing after `a.yml`
succeeded, the run keeps the first write, logs the caught error, still
prints the summary naming both missing keys, and returns normally. -/
theorem checkRemovedServices_write_failure_witness :
    checkRemovedServices c6Env =
      ⟨[c6RecA].map (fun u => (writePathOf u, c6Env.yamlDump u (-1))),
       [.err ("Error while rewriting file: ".data ++ "EACCES".data),
        .info (summaryMsg (differencesOf ["a".data, "b".data] (getYmlFileNames [])))],
       .ok ()⟩ :=
  checkRemovedServices_write_failure c6Env
    (.obj [("blocked_services".data, .arr [c6RecA, c6RecB])])
    [c6RecA, c6RecB] [] ["a".data, "b".data]
    [c6RecA, c6RecB] [c6RecA] [] c6RecB "EACCES".data
    rfl rfl rfl (by decide) rfl (by decide) rfl
    (fun u hu => by
      rcases List.mem_singleton.mp hu with rfl
      exact ⟨_, rfl⟩)
    (by decide)

/-! ### C2: where the writer writes -/

/-- Environment of the C2 counterexample: a `servicesFolderPath`
different from the module constant `servicesDir`. -/
def c2Env : Env :=
  ⟨"custom".data,
   .ok (.obj [("blocked_services".data,
     .arr [.obj [("id".data, .str "Example.com".data)],
           .obj [("id".data, .str "other".data)]])]),
   .ok ["other.yml".data],
   fun _ => none,
   fun _ _ => "Y".data⟩

/-- Counterexample to C2 as stated: the missing record
`Example.com` is written to `servicesDir/Example.com.yml`, the
module-level constant directory, not into the `servicesFolderPath`
(`custom`) whose listing was diffed — no write targets the listed
directory at all. -/
theorem checkRemovedServices_write_dir_cex :
    (checkRemovedServices c2Env).writes.map Prod.fst
        = [pathJoin servicesDir "Example.com.yml".data] ∧
    c2Env.servicesFolderPath ≠ servicesDir ∧
    ∀ w ∈ (checkRemovedServices c2Env).writes,
      w.1 ≠ pathJoin c2Env.servicesFolderPath "Example.com.yml".data := by
  decide

/-- C2 (amended): for every missing key, the writer serializes the
resolved legacy record with `lineWidth -1` and writes it to a file
named with the record's original, un-normalized `id` plus `.yml` —
but placed in the module-level `servicesDir` directory (see
`writePathOf`), which is not in general the `servicesFolderPath` that
was listed. When every write succeeds, the run performs exactly these
writes, in resolution order, and then logs the summary line. -/
theorem checkRemovedServices_write_spec
    (env : Env) (doc : JsValue) (objs : List JsValue) (files : List Str) (ns : List Str)
    (os : List JsValue)
    (hdoc : env.jsonDoc = .ok doc)
    (hbs : jsField doc "blocked_services".data = .ok (.arr objs))
    (hdir : env.readdir = .ok files)
    (hns : getJsonObjectNames objs = .ok ns)
    (hos : jsMapThrow (jsFindServiceData objs)
      (differencesOf ns (getYmlFileNames files)) = .ok os)
    (hne : differencesOf ns (getYmlFileNames files) ≠ [])
    (hall : ∀ u ∈ os, ∃ p, writeAttempt env.writeErr u = .ok p) :
    checkRemovedServices env =
      ⟨os.map (fun u => (writePathOf u, env.yamlDump u (-1))),
       [.info (summaryMsg (differencesOf ns (getYmlFileNames files)))], .ok ()⟩ := by
  have hlen : (differencesOf ns (getYmlFileNames files)).length > 0 :=
    List.length_pos.mpr hne
  simp only [checkRemovedServices, getJsonObjects, hdoc, hbs, hdir, hns]
  rw [if_pos hlen]
  simp only [rewriteYMLFile, hos, writeRemovedServices_all_ok env.writeErr env.yamlDump os hall]
  simp

/-- Environment of the C2 amended witness: the spec example, with the
listed folder equal to `servicesDir`. -/
def c2OkEnv : Env :=
  ⟨servicesDir,
   .ok (.obj [("blocked_services".data,
     .arr [.obj [("id".data, .str "Example.com".data)],
           .obj [("id".data, .str "other".data)]])]),
   .ok ["other.yml".data],
   fun _ => none,
   fun _ _ => "Y".data⟩

/-- Witness for the amended C2, on the example of the spec: legacy
records `Example.com` and `other` against the single file `other.yml`
produce exactly one write, of the record with the original id
`Example.com`, serialized at `lineWidth -1`. -/
theorem checkRemovedServices_write_spec_witness :
    checkRemovedServices c2OkEnv =
      ⟨[JsValue.obj [("id".data, JsValue.str "Example.com".data)]].map
          (fun u => (writePathOf u, c2OkEnv.yamlDump u (-1))),
       [.info (summaryMsg (differencesOf ["example.com".data, "other".data]
         (getYmlFileNames ["other.yml".data])))], .ok ()⟩ :=
  checkRemovedServices_write_spec c2OkEnv
    (.obj [("blocked_services".data,
      .arr [.obj [("id".data, .str "Example.com".data)],
            .obj [("id".data, .str "other".data)]])])
    [.obj [("id".data, .str "Example.com".data)],
     .obj [("id".data, .str "other".data)]]
    ["other.yml".data] ["example.com".data, "other".data]
    [.obj [("id".data, .str "Example.com".data)]]
    rfl rfl rfl (by decide) rfl (by decide)
    (fun u hu => by
      rcases List.mem_singleton.mp hu with rfl
      exact ⟨_, rfl⟩)

/-! ### C7: which I/O failures are caught -/

/-- Environment of the C7 counterexample: the legacy document loads
fine, but `fs.readdir` rejects. -/
def c7Env : Env :=
  ⟨servicesDir,
   .ok (.obj [("blocked_services".data, .arr [.obj [("id".data, .str "a".data)]])]),
   .error "EACCES".data,
   fun _ => none,
   fun _ _ => "Y".data⟩

/-- Counterexample to C7 as stated: a failure of the directory listing
(`fs.readdir`, an I/O operation of the run) is not caught anywhere —
the run produces no log line and the error escapes
`checkRemovedServices` as a rejected promise. -/
theorem checkRemovedServices_readdir_uncaught_cex :
    checkRemovedServices c7Env = ⟨[], [], .error "EACCES".data⟩ := by
  decide

/-- C7 (amended): failures of the legacy read/parse are caught and
logged, and once the listing and the id extraction have succeeded the
run always resolves normally whatever `fs.writeFile` does (write
failures are caught and logged inside `rewriteYMLFile`); but a failure
of `fs.readdir` is not caught: it escapes `checkRemovedServices`
uncaught, with no log line. -/
theorem checkRemovedServices_io_errors_amended
    (env : Env) (e : Str) (doc : JsValue) (objs : List JsValue) (files : List Str)
    (ns : List Str) :
    (env.jsonDoc = .error e →
      checkRemovedServices env =
        ⟨[], [.err ("Error while reading JSON file: ".data ++ e)], .ok ()⟩) ∧
    (env.jsonDoc = .ok doc → jsField doc "blocked_services".data = .ok (.arr objs) →
      env.readdir = .ok files → getJsonObjectNames objs = .ok ns →
      (checkRemovedServices env).outcome = .ok ()) ∧
    (env.jsonDoc = .ok doc → jsField doc "blocked_services".data = .ok (.arr objs) →
      env.readdir = .error e →
      checkRemovedServices env = ⟨[], [], .error e⟩) := by
  refine ⟨?_, ?_, ?_⟩
  · intro h
    simp [checkRemovedServices, getJsonObjects, h]
  · intro hdoc hbs hdir hns
    simp only [checkRemovedServices, getJsonObjects, hdoc, hbs, hdir, hns]
    split <;> rfl
  · intro hdoc hbs hdir
    simp [checkRemovedServices, getJsonObjects, hdoc, hbs, hdir]

/-- Environment of the C7 amended witness, second conjunct: every
write rejects, yet the run resolves normally. -/
def c7OkEnv : Env :=
  ⟨servicesDir,
   .ok (.obj [("blocked_services".data, .arr [.obj [("id".data, .str "a".data)]])]),
   .ok [],
   fun _ => some "EPERM".data,
   fun _ _ => "Y".data⟩

/-- Witness for the amended C7: a parse failure is caught and logged;
a run whose every write rejects still resolves normally; a `readdir`
failure escapes uncaught with no log. -/
theorem checkRemovedServices_io_errors_amended_witness :
    checkRemovedServices ⟨[], .error "EIO".data, .ok [], fun _ => none, fun _ _ => []⟩ =
      ⟨[], [.err ("Error while reading JSON file: ".data ++ "EIO".data)], .ok ()⟩ ∧
    (checkRemovedServices c7OkEnv).outcome = .ok () ∧
    checkRemovedServices c7Env = ⟨[], [], .error "EACCES".data⟩ :=
  ⟨(checkRemovedServices_io_errors_amended
      ⟨[], .error "EIO".data, .ok [], fun _ => none, fun _ _ => []⟩
      "EIO".data .null [] [] []).1 rfl,
   (checkRemovedServices_io_errors_amended c7OkEnv []
      (.obj [("blocked_services".data, .arr [.obj [("id".data, .str "a".data)]])])
      [.obj [("id".data, .str "a".data)]] [] ["a".data]).2.1 rfl rfl rfl (by decide),
   (checkRemovedServices_io_errors_amended c7Env "EACCES".data
      (.obj [("blocked_services".data, .arr [.obj [("id".data, .str "a".data)]])])
      [.obj [("id".data, .str "a".data)]] [] []).2.2 rfl rfl rfl⟩

/-! ### C10: a missing or non-string id throws out of the entry point -/

theorem jsField_error_typeError {v : JsValue} {name : Str} {e : Str}
    (h : jsField v name = .error e) : ∃ t, e = "TypeError: ".data ++ t := by
  cases v with
  | null =>
    simp only [jsField, Except.error.injEq] at h
    exact ⟨"Cannot read properties of null".data, by rw [← h]; rfl⟩
  | undefined =>
    simp only [jsField, Except.error.injEq] at h
    exact ⟨"Cannot read properties of undefined".data, by rw [← h]; rfl⟩
  | obj fields =>
    simp only [jsField] at h
    split at h <;> simp at h
  | str s => simp [jsField] at h
  | num n => simp [jsField] at h
  | bool b => simp [jsField] at h
  | arr elems => simp [jsField] at h

theorem jsNormalizeFileName_error {v : JsValue} {e : Str}
    (h : jsNormalizeFileName v = .error e) : ∃ t, e = "TypeError: ".data ++ t := by
  cases v
  case str _ => simp [jsNormalizeFileName, jsToLowerCase] at h
  all_goals
    simp only [jsNormalizeFileName, jsToLowerCase, Except.error.injEq] at h
    exact ⟨"toLowerCase is not a function".data, by rw [← h]; rfl⟩

/-- C10: when the legacy value is an array but some record's `id` is
absent or not a string, the run ends with an uncaught `TypeError`
escaping the entry point (thrown while normalizing the ids), with no
file written and no log line of its own. -/
theorem checkRemovedServices_bad_id_throws
    (env : Env) (doc : JsValue) (objs : List JsValue) (files : List Str)
    (v iv : JsValue)
    (hdoc : env.jsonDoc = .ok doc)
    (hbs : jsField doc "blocked_services".data = .ok (.arr objs))
    (hdir : env.readdir = .ok files)
    (hv : v ∈ objs) (hiv : jsField v "id".data = .ok iv)
    (hnotstr : ∀ s, iv ≠ .str s) :
    ∃ e, checkRemovedServices env = ⟨[], [], .error e⟩ ∧
      ∃ t, e = "TypeError: ".data ++ t := by
  have hjn : ∃ e, getJsonObjectNames objs = .error e ∧
      ∃ t, e = "TypeError: ".data ++ t := by
    unfold getJsonObjectNames
    cases hm : jsMapThrow (fun service => jsField service "id".data) objs with
    | error e0 =>
      rcases jsMapThrow_error_mem hm with ⟨x, _, hfx⟩
      exact ⟨e0, rfl, jsField_error_typeError hfx⟩
    | ok ids =>
      have hmem : iv ∈ ids := jsMapThrow_mem_ok hm hv hiv
      have herr : jsNormalizeFileName iv
          = .error "TypeError: toLowerCase is not a function".data := by
        cases iv with
        | str s => exact absurd rfl (hnotstr s)
        | _ => rfl
      rcases jsMapThrow_error_of_mem hmem herr with ⟨e2, h2⟩
      rcases jsMapThrow_error_mem h2 with ⟨y, _, hfy⟩
      refine ⟨e2, ?_, jsNormalizeFileName_error hfy⟩
      dsimp only
      rw [h2]
  rcases hjn with ⟨e, he, ht⟩
  refine ⟨e, ?_, ht⟩
  simp only [checkRemovedServices, getJsonObjects, hdoc, hbs, hdir, he]

/-- Environment of the C10 witness: one legacy record without any
`id` field. -/
def c10Env : Env :=
  ⟨servicesDir,
   .ok (.obj [("blocked_services".data, .arr [.obj []])]),
   .ok [],
   fun _ => none,
   fun _ _ => "Y".data⟩

/-- Witness for C10: a record `{}` (no id) makes the run reject with
an uncaught `TypeError`, with no write and no log. -/
theorem checkRemovedServices_bad_id_throws_witness :
    ∃ e, checkRemovedServices c10Env = ⟨[], [], .error e⟩ ∧
      ∃ t, e = "TypeError: ".data ++ t :=
  checkRemovedServices_bad_id_throws c10Env
    (.obj [("blocked_services".data, .arr [.obj []])])
    [.obj []] [] (.obj []) .undefined
    rfl rfl rfl (List.mem_singleton.mpr rfl) rfl
    (fun _ h => JsValue.noConfusion h)

/-! ### C8: existing files are not overwritten (almost) -/

theorem lastDotIdx_append_ext (xs : Str) :
    lastDotIdx (xs ++ YML_FILE_EXTENSION) = some xs.length := by
  induction xs with
  | nil => rfl
  | cons c rest ih => simp [lastDotIdx, ih]

/-- Stripping the `.yml` extension recovers a non-empty id. -/
theorem pathParseName_append_ext {xs : Str} (h : xs ≠ []) :
    pathParseName (xs ++ YML_FILE_EXTENSION) = xs := by
  unfold pathParseName
  rw [lastDotIdx_append_ext]
  split
  next heq => exact absurd heq (by simp)
  next heq =>
    simp only [Option.some.injEq] at heq
    exact absurd (List.length_eq_zero.mp heq) h
  next i heq =>
    simp only [Option.some.injEq] at heq
    subst heq
    rw [if_neg, List.take_left]
    rintro ⟨-, -, habs⟩
    rw [List.length_append] at habs
    simp [YML_FILE_EXTENSION] at habs

theorem mem_getYmlFileNames {files : List Str} {f : Str} (hf : f ∈ files) :
    normalizeFileName (pathParseName f) ∈ getYmlFileNames files := by
  unfold getYmlFileNames
  exact mem_jsSort.mpr
    (List.mem_map_of_mem normalizeFileName (List.mem_map_of_mem pathParseName hf))

theorem pathJoin_right_inj {d a b : Str} (h : pathJoin d a = pathJoin d b) : a = b := by
  unfold pathJoin at h
  exact List.append_cancel_left h

theorem jsNormalizeFileName_str (s : Str) :
    jsNormalizeFileName (.str s) = .ok (normalizeFileName s) := rfl

/-- A successful `find` yields `undefined` or a member of the data
whose normalized id is the searched name. -/
theorem jsFindServiceData_ok_cases :
    ∀ {data : List JsValue} {k : Str} {r : JsValue},
      jsFindServiceData data k = .ok r →
      r = .undefined ∨ (r ∈ data ∧ ∃ iv, jsField r "id".data = .ok iv ∧
        jsNormalizeFileName iv = .ok k) := by
  intro data
  induction data with
  | nil =>
    intro k r h
    simp only [jsFindServiceData, Except.ok.injEq] at h
    exact Or.inl h.symm
  | cons el rest ih =>
    intro k r h
    simp only [jsFindServiceData] at h
    cases hid : jsField el "id".data with
    | error e => rw [hid] at h; simp at h
    | ok idv =>
      rw [hid] at h
      dsimp only at h
      cases hnorm : jsNormalizeFileName idv with
      | error e => rw [hnorm] at h; simp at h
      | ok nid =>
        rw [hnorm] at h
        dsimp only at h
        by_cases heq : nid = k
        · rw [if_pos heq] at h
          simp only [Except.ok.injEq] at h
          subst h
          exact Or.inr ⟨List.mem_cons_self el rest, idv, hid, heq ▸ hnorm⟩
        · rw [if_neg heq] at h
          rcases ih h with hund | ⟨hmem, hrest⟩
          · exact Or.inl hund
          · exact Or.inr ⟨List.mem_cons_of_mem el hmem, hrest⟩

/-- Environment of the C8 counterexample: a legacy record whose id is
the empty string, and a listed dotfile `.yml`. -/
def c8Env : Env :=
  ⟨servicesDir,
   .ok (.obj [("blocked_services".data, .arr [.obj [("id".data, .str [])]])]),
   .ok [".yml".data],
   fun _ => none,
   fun _ _ => "Y".data⟩

/-- Counterexample to C8 as stated: with a legacy record whose id is
the empty string and a pre-existing dotfile `.yml` in the listed
directory (which here is `servicesDir` itself), the run writes to
exactly the path of that pre-existing file — the written path's
normalized, extension-stripped base name (`.yml`) is present in the
pre-run listing, and the existing file is overwritten. -/
theorem checkRemovedServices_overwrite_cex :
    c8Env.servicesFolderPath = servicesDir ∧
    c8Env.readdir = .ok [".yml".data] ∧
    (checkRemovedServices c8Env).writes.map Prod.fst
        = [pathJoin c8Env.servicesFolderPath ".yml".data] ∧
    normalizeFileName (pathParseName ".yml".data) ∈ getYmlFileNames [".yml".data] := by
  decide

/-- C8 (amended): provided every legacy record's id is a non-empty
string, every path the run writes to carries a fresh name: its
normalized, extension-stripped base name is absent from the pre-run
directory listing, and the path differs from the path of every listed
file inside `servicesDir` — so when the listed directory is
`servicesDir` itself, no pre-existing individual file is mutated,
overwritten, or removed. (The restriction is necessary: an
empty-string id produces the dotfile `.yml`, whose base name does not
round-trip through extension stripping.) -/
theorem checkRemovedServices_no_overwrite
    (env : Env) (doc : JsValue) (objs : List JsValue) (files : List Str) (ns : List Str)
    (hdoc : env.jsonDoc = .ok doc)
    (hbs : jsField doc "blocked_services".data = .ok (.arr objs))
    (hdir : env.readdir = .ok files)
    (hns : getJsonObjectNames objs = .ok ns)
    (hids : ∀ u ∈ objs, ∃ s, jsField u "id".data = .ok (.str s) ∧ s ≠ []) :
    ∀ w ∈ (checkRemovedServices env).writes, ∃ s : Str, s ≠ [] ∧
      w.1 = pathJoin servicesDir (s ++ YML_FILE_EXTENSION) ∧
      normalizeFileName (pathParseName (s ++ YML_FILE_EXTENSION)) ∉ getYmlFileNames files ∧
      ∀ f ∈ files, w.1 ≠ pathJoin servicesDir f := by
  intro w hw
  simp only [checkRemovedServices, getJsonObjects, hdoc, hbs, hdir, hns] at hw
  by_cases hlen : (differencesOf ns (getYmlFileNames files)).length > 0
  swap
  · rw [if_neg hlen] at hw
    simp at hw
  rw [if_pos hlen] at hw
  unfold rewriteYMLFile at hw
  cases hos : jsMapThrow (jsFindServiceData objs)
      (differencesOf ns (getYmlFileNames files)) with
  | error e => rw [hos] at hw; simp at hw
  | ok os =>
    rw [hos] at hw
    dsimp only at hw
    have hw2 : w ∈ (writeRemovedServices env.writeErr env.yamlDump os).1 := by
      revert hw
      cases writeRemovedServices env.writeErr env.yamlDump os with
      | mk ws res => cases res <;> exact fun hw => hw
    rcases writeRemovedServices_mem env.writeErr env.yamlDump os w hw2 with
      ⟨r, hr, iv, hid, hwshape⟩
    rcases jsMapThrow_ok_mem hos r hr with ⟨k, hkdiff, hkfind⟩
    rcases jsFindServiceData_ok_cases hkfind with hund | ⟨hrobjs, iv2, hid2, hnorm2⟩
    · subst hund
      simp [jsField] at hid
    · rcases hids r hrobjs with ⟨s, hsid, hsne⟩
      have hiveq : iv = .str s := by
        rw [hsid] at hid
        exact (Except.ok.inj hid).symm
      have hiv2eq : iv2 = .str s := by
        rw [hsid] at hid2
        exact (Except.ok.inj hid2).symm
      subst hiveq
      subst hiv2eq
      rw [jsNormalizeFileName_str] at hnorm2
      have hk : normalizeFileName s = k := by
        simpa using hnorm2
      have hknot : k ∉ getYmlFileNames files :=
        (mem_differencesOf.mp hkdiff).2
      refine ⟨s, hsne, ?_, ?_, ?_⟩
      · rw [hwshape]
        rfl
      · rw [pathParseName_append_ext hsne, hk]
        exact hknot
      · intro f hf heq
        rw [hwshape] at heq
        have hfeq : s ++ YML_FILE_EXTENSION = f := pathJoin_right_inj heq
        have : normalizeFileName (pathParseName f) ∈ getYmlFileNames files :=
          mem_getYmlFileNames hf
        rw [← hfeq, pathParseName_append_ext hsne, hk] at this
        exact hknot this

/-- Environment of the C8 amended witness. -/
def c8OkEnv : Env :=
  ⟨servicesDir,
   .ok (.obj [("blocked_services".data, .arr [.obj [("id".data, .str "New".data)]])]),
   .ok ["other.yml".data],
   fun _ => none,
   fun _ _ => "Y".data⟩

/-- Witness for the amended C8: the single write of the run against
the listing `other.yml` (the missing record `New`, written to
`New.yml`) carries a fresh name absent from the listing and differs
from the path of the listed file. -/
theorem checkRemovedServices_no_overwrite_witness :
    ∃ s : Str, s ≠ [] ∧
      (pathJoin servicesDir "New.yml".data, "Y".data).1
          = pathJoin servicesDir (s ++ YML_FILE_EXTENSION) ∧
      normalizeFileName (pathParseName (s ++ YML_FILE_EXTENSION))
        ∉ getYmlFileNames ["other.yml".data] ∧
      ∀ f ∈ ["other.yml".data],
        (pathJoin servicesDir "New.yml".data, "Y".data).1 ≠ pathJoin servicesDir f :=
  checkRemovedServices_no_overwrite c8OkEnv
    (.obj [("blocked_services".data, .arr [.obj [("id".data, .str "New".data)]])])
    [.obj [("id".data, .str "New".data)]]
    ["other.yml".data] ["new".data]
    rfl rfl rfl (by decide)
    (fun u hu => by
      rcases List.mem_singleton.mp hu with rfl
      exact ⟨"New".data, rfl, by decide⟩)
    (pathJoin servicesDir "New.yml".data, "Y".data)
    (by decide)

end AdRules
